import Mathlib

/-!
Verification of the document-normalization and block-structuring pipeline of the
notes-simplifier repository.

The embedding models:
* the markdown-stripping replacement chain of `simplifyNotes` (backend, lines 172-182)
  and of `FormattedNotesDisplay` (frontend, lines 7-16), as character-list rewriting
  functions that mirror the JavaScript `String.replace(regex, ...)` semantics
  (global leftmost scan, lazy `.*?` groups that never cross a newline);
* the line classifier of `FormattedNotesDisplay` (lines 19-55);
* the file-text extractor (`extractTextFromPDF`, `extractTextFromWord`,
  `extractTextFromFile`, backend lines 46-122), with the two delegated document
  readers (pdf-parse, mammoth) modeled as an abstract outcome `Except String String`
  (error message or extracted text), and a buffer modeled by the string its bytes
  decode to (`buffer.toString` is total in Node).
-/

/-- The JavaScript whitespace class: the characters matched by regex `\s` and
trimmed by `String.trim` (WhiteSpace plus LineTerminator code points). -/
def isJsWs (c : Char) : Bool :=
  c = ' ' || c = '\t' || c = '\n' || c = '\r' ||
  c.val = 0x0B || c.val = 0x0C || c.val = 0xA0 || c.val = 0x1680 ||
  (0x2000 ≤ c.val && c.val ≤ 0x200A) || c.val = 0x2028 || c.val = 0x2029 ||
  c.val = 0x202F || c.val = 0x205F || c.val = 0x3000 || c.val = 0xFEFF

/-- The backquote character (code 0x60), the delimiter of the inline-code rule. -/
def bq : Char := Char.ofNat 0x60

/-- Drop trailing JavaScript whitespace. -/
def dropTrailWs (l : List Char) : List Char :=
  (l.reverse.dropWhile isJsWs).reverse

/-- JavaScript `String.trim` on a character list. -/
def trimL (l : List Char) : List Char :=
  dropTrailWs (l.dropWhile isJsWs)

/-- JavaScript `String.trim`. -/
def jsTrim (s : String) : String :=
  String.mk (trimL s.data)

/-- Does the list start with the pattern `d`? -/
def leadsWith : List Char → List Char → Bool
  | [], _ => true
  | _ :: _, [] => false
  | a :: as, b :: bs => a = b && leadsWith as bs

/-- Lazy search for the closing delimiter `d`: returns the shortest newline-free
group `g` with the input equal to `g ++ d ++ rest`, mirroring how the lazy group
`(.*?)` (which cannot match a newline) expands one character at a time until the
closing delimiter matches. -/
def lazyFind (d : List Char) : List Char → Option (List Char × List Char)
  | [] => none
  | c :: cs =>
    if leadsWith d (c :: cs) then some ([], (c :: cs).drop d.length)
    else if c = '\n' then none
    else
      match lazyFind d cs with
      | some (g, r) => some (c :: g, r)
      | none => none

/-- Scanner for a wrapper rule `replace(/d(.*?)d/g, between)`: when no skip is
pending and the delimiter matches with a lazy closing match, emit the group and
skip the remainder of the match; otherwise emit the character and move on.  The
`Nat` argument counts characters still to be skipped from a previous match, which
keeps the recursion structural on the list. -/
def stripWrapGo (d : List Char) : List Char → Nat → List Char
  | [], _ => []
  | _ :: cs, Nat.succ k => stripWrapGo d cs k
  | c :: cs, 0 =>
    if leadsWith d (c :: cs) then
      match lazyFind d ((c :: cs).drop d.length) with
      | some (g, _) => g ++ stripWrapGo d cs (d.length + g.length + d.length - 1)
      | none => c :: stripWrapGo d cs 0
    else c :: stripWrapGo d cs 0

/-- One wrapper substitution rule, e.g. `replace(/\*\*(.*?)\*\*/g, between)`. -/
def stripWrap (d : List Char) (l : List Char) : List Char :=
  stripWrapGo d l 0

/-- Length of the leading JavaScript-whitespace run. -/
def countWs (l : List Char) : Nat :=
  (l.takeWhile isJsWs).length

/-- Scanner for a heading rule `replace(/d\s*I/g, empty-string)` (with `d` a run of
hash marks): on a match delete the delimiter and the following greedy whitespace
run (`\s` also matches newlines). -/
def stripHeadGo (d : List Char) : List Char → Nat → List Char
  | [], _ => []
  | _ :: cs, Nat.succ k => stripHeadGo d cs k
  | c :: cs, 0 =>
    if leadsWith d (c :: cs) then
      stripHeadGo d cs (d.length + countWs ((c :: cs).drop d.length) - 1)
    else c :: stripHeadGo d cs 0

/-- One heading substitution rule. -/
def stripHead (d : List Char) (l : List Char) : List Char :=
  stripHeadGo d l 0

/-- Lazy search for a closing parenthesis before any newline, for the second lazy
group of the link rule. -/
def closeParen : List Char → Option Nat
  | [] => none
  | c :: cs =>
    if c = ')' then some 0
    else if c = '\n' then none
    else
      match closeParen cs with
      | some n => some (n + 1)
      | none => none

/-- Backtracking match of the tail of the link rule `\[(.*?)\]\(.*?\)` after the
opening bracket: returns the label group and the number of consumed characters.
The first lazy group grows one character at a time; at each stop it needs a
bracket-parenthesis pair followed by a closing parenthesis on the same line. -/
def linkMatch : List Char → Option (List Char × Nat)
  | [] => none
  | c :: cs =>
    if c = ']' then
      match cs with
      | '(' :: u =>
        match closeParen u with
        | some b => some ([], 2 + b + 1)
        | none =>
          match linkMatch cs with
          | some (g, n) => some (c :: g, n + 1)
          | none => none
      | _ =>
        match linkMatch cs with
        | some (g, n) => some (c :: g, n + 1)
        | none => none
    else if c = '\n' then none
    else
      match linkMatch cs with
      | some (g, n) => some (c :: g, n + 1)
      | none => none

/-- Scanner for the link rule `replace(/\[(.*?)\]\(.*?\)/g, label)`. -/
def linkGo : List Char → Nat → List Char
  | [], _ => []
  | _ :: cs, Nat.succ k => linkGo cs k
  | c :: cs, 0 =>
    if c = '[' then
      match linkMatch cs with
      | some (g, n) => g ++ linkGo cs n
      | none => c :: linkGo cs 0
    else c :: linkGo cs 0

/-- The link substitution rule, present only on the AI-response cleanup path. -/
def stripLinks (l : List Char) : List Char :=
  linkGo l 0

/-- Does the wrapper pattern `d(.*?)d` match anywhere in the list? -/
def hasWrapMatch (d : List Char) : List Char → Bool
  | [] => false
  | c :: cs =>
    (leadsWith d (c :: cs) && (lazyFind d ((c :: cs).drop d.length)).isSome) ||
      hasWrapMatch d cs

/-- Does the link pattern `\[(.*?)\]\(.*?\)` match anywhere in the list? -/
def hasLinkMatch : List Char → Bool
  | [] => false
  | c :: cs => (c = '[' && (linkMatch cs).isSome) || hasLinkMatch cs

/-- The first five rules shared by both cleanup chains, in source order:
triple, double, single asterisk wrappers, then double, single underscore
wrappers. -/
def emphChainL (l : List Char) : List Char :=
  stripWrap ['_'] (stripWrap ['_', '_']
    (stripWrap ['*'] (stripWrap ['*', '*'] (stripWrap ['*', '*', '*'] l))))

/-- The cleanup chain applied to the AI response inside `simplifyNotes`
(backend, lines 172-182), rule for rule in source order: triple, double, single
asterisk wrappers; double, single underscore wrappers; the three heading rules;
the inline-code wrapper; the markdown-link rule. -/
def simplifyNotesCleanupL (l : List Char) : List Char :=
  stripLinks (stripWrap [bq]
    (stripHead ['#'] (stripHead ['#', '#'] (stripHead ['#', '#', '#']
      (emphChainL l)))))

/-- String form of the backend AI-response cleanup. -/
def simplifyNotesCleanup (s : String) : String :=
  String.mk (simplifyNotesCleanupL s.data)

/-- The cleanup chain applied to displayed content in `FormattedNotesDisplay`
(frontend, lines 7-16), rule for rule in source order: the five emphasis
wrappers, then the inline-code wrapper, then the three heading rules (note the
inline-code rule sits before the heading rules here, unlike the backend chain,
and there is no link rule). -/
def formattedNotesCleanupL (l : List Char) : List Char :=
  stripHead ['#'] (stripHead ['#', '#'] (stripHead ['#', '#', '#']
    (stripWrap [bq] (emphChainL l))))

/-- String form of the frontend display cleanup. -/
def formattedNotesCleanup (s : String) : String :=
  String.mk (formattedNotesCleanupL s.data)

/-- Has a character occurred on the current line already?  `noPairAux c seen l`
is true when no line of `l` (continuing a line on which `c` has occurred iff
`seen`) carries two occurrences of `c`. -/
def noPairAux (c : Char) : Bool → List Char → Bool
  | _, [] => true
  | seen, x :: xs =>
    if x = '\n' then noPairAux c false xs
    else if x = c then (if seen then false else noPairAux c true xs)
    else noPairAux c seen xs

/-- No line of `l` contains two occurrences of the character `c`. -/
def noPair (c : Char) (l : List Char) : Bool :=
  noPairAux c false l

/-- The four render-block kinds of `FormattedNotesDisplay`. -/
inductive BlockKind
  | Header
  | Bullet
  | Paragraph
  | Spacer
deriving DecidableEq, Repr

/-- One rendered block: a kind and its content string. -/
structure RenderBlock where
  kind : BlockKind
  content : String
deriving DecidableEq, Repr

/-- The header test `/^[🎯💡⭐📝🔍]/` of the frontend, at the level of Unicode
scalar values.  The regex has no `u` flag, so its character class is the set of
UTF-16 code units of the five glyphs: `{ D83C, DFAF, D83D, DCA1, 2B50, DCDD,
DD0D }`.  The first code unit of a well-formed string is either a BMP scalar
(matching only `2B50 = ⭐`) or the high surrogate of a supplementary scalar;
high surrogate `D83C` covers scalars `1F000-1F3FF` and `D83D` covers
`1F400-1F7FF`, so at scalar level the test accepts `⭐` and every code point in
`1F000-1F7FF` (lone low surrogates are not representable as `Char`). -/
def isHeaderStart (c : Char) : Bool :=
  c = '⭐' || (0x1F000 ≤ c.val && c.val ≤ 0x1F7FF)

/-- Whether `trimmedLine.match(/^[🎯💡⭐📝🔍]/)` is truthy. -/
def headMatches (t : String) : Bool :=
  match t.data with
  | [] => false
  | c :: _ => isHeaderStart c

/-- Whether `trimmedLine.startsWith` holds of the bullet glyph `•`. -/
def bulletStart (t : String) : Bool :=
  match t.data with
  | [] => false
  | c :: _ => c = '•'

/-- Classification of one line by `FormattedNotesDisplay` (lines 23-54):
empty after trim is a spacer; a header-glyph start is a header holding the
trimmed line; a leading bullet glyph is a bullet holding the re-trimmed rest;
anything else is a paragraph holding the trimmed line. -/
def classifyLine (line : String) : RenderBlock :=
  let t := jsTrim line
  if t = "" then ⟨BlockKind.Spacer, ""⟩
  else if headMatches t then ⟨BlockKind.Header, t⟩
  else if bulletStart t then
    ⟨BlockKind.Bullet, jsTrim (String.mk (t.data.drop 1))⟩
  else ⟨BlockKind.Paragraph, t⟩

/-- JavaScript `split('\n')` on a character list: the list of lines, where a
trailing line break yields a final empty line and the empty string yields one
empty line. -/
def splitNl : List Char → List (List Char)
  | [] => [[]]
  | c :: cs =>
    if c = '\n' then [] :: splitNl cs
    else
      match splitNl cs with
      | [] => [[c]]
      | h :: t => (c :: h) :: t

/-- The block classifier: split on line breaks and classify each line. -/
def classify (text : String) : List RenderBlock :=
  (splitNl text.data).map (fun l => classifyLine (String.mk l))

/-- The full display path of `FormattedNotesDisplay`: cleanup then classify. -/
def displayBlocks (content : String) : List RenderBlock :=
  classify (formattedNotesCleanup content)

/-- Reinsert the bullet glyph stripped from a bullet block; other blocks render
their content as is (a spacer renders nothing, and its content is empty). -/
def restoreContent (b : RenderBlock) : String :=
  match b.kind with
  | BlockKind.Bullet => "•" ++ b.content
  | _ => b.content

/-- Collapse the whitespace that separates a leading bullet glyph from its text. -/
def bulletCollapse (t : String) : String :=
  if bulletStart t then "•" ++ jsTrim (String.mk (t.data.drop 1)) else t

/-- The degraded-result placeholder of the PDF path (backend line 54). -/
def pdfFailMsg : String :=
  "PDF text extraction failed. The PDF might be image-based or corrupted. Please try copying the text manually."

/-- `extractTextFromPDF` (backend lines 46-56): the delegated pdf-parse outcome
is an error message or the raw text layer; a reader failure is swallowed and
becomes the degraded placeholder, a success is trimmed with an empty-text
placeholder.  The return type `String` (not `Except`) reflects that this path
never propagates an error. -/
def extractTextFromPDF (pdfReader : Except String String) : String :=
  match pdfReader with
  | Except.ok text => if jsTrim text = "" then "No readable text found in PDF" else jsTrim text
  | Except.error _ => pdfFailMsg

/-- `extractTextFromWord` (backend lines 59-68): a mammoth failure is rethrown
with the underlying message appended; a success is trimmed with an empty-text
placeholder. -/
def extractTextFromWord (wordReader : Except String String) : Except String String :=
  match wordReader with
  | Except.ok v =>
      Except.ok (if jsTrim v = "" then "No text found in Word document" else jsTrim v)
  | Except.error e =>
      Except.error ("Failed to extract text from Word document: " ++ e)

/-- ASCII lowercasing, modeling `String.toLowerCase` on extension strings
(extensions compared against the recognized set are ASCII). -/
def lowerStr (s : String) : String :=
  String.mk (s.data.map Char.toLower)

/-- The part of the path after the last separator. -/
def basenameL (l : List Char) : List Char :=
  (l.reverse.takeWhile (· ≠ '/')).reverse

/-- Node's `path.extname`: the substring of the basename from its last dot, or
empty when there is no dot, when the only dot leads the basename (dotfiles), or
for the special name `..`. -/
def extname (filename : String) : String :=
  let base := basenameL filename.data
  if base = ['.', '.'] then ""
  else
    let afterDot := base.reverse.takeWhile (· ≠ '.')
    if afterDot.length = base.length then ""
    else if base.length - afterDot.length - 1 = 0 then ""
    else String.mk ('.' :: afterDot.reverse)

/-- The four MIME types with a dedicated dispatch case (backend lines 77-86). -/
def mimeWordDocx : String :=
  "application/vnd.openxmlformats-officedocument.wordprocessingml.document"

/-- The unsupported-file-type message thrown at backend line 116. -/
def unsupportedMsg (mimetype ext : String) : String :=
  "Unsupported file type: " ++ (if mimetype = "" then "unknown" else mimetype) ++
    " (" ++ (if ext = "" then "no extension" else ext) ++
    "). Supported formats: PDF, Word (.docx, .doc), Text (.txt, .md, .csv)"

/-- The dispatch body of `extractTextFromFile` (backend lines 77-117), before
the surrounding catch: match the declared MIME type first, else the lowercased
filename extension, else accept a plain-text decode of bounded nonzero length,
else throw the unsupported-format error.  `content` stands for the total
`buffer.toString` decode of the uploaded bytes. -/
def extractBody (pdfReader wordReader : Except String String)
    (content mimetype filename : String) : Except String String :=
  if mimetype = "text/plain" then Except.ok content
  else if mimetype = "application/pdf" then Except.ok (extractTextFromPDF pdfReader)
  else if mimetype = mimeWordDocx ∨ mimetype = "application/msword" then
    extractTextFromWord wordReader
  else
    let ext := lowerStr (extname filename)
    if ext = ".txt" ∨ ext = ".md" ∨ ext = ".csv" then Except.ok content
    else if ext = ".pdf" then Except.ok (extractTextFromPDF pdfReader)
    else if ext = ".docx" ∨ ext = ".doc" then extractTextFromWord wordReader
    else if 0 < content.length ∧ content.length < 1000000 then Except.ok content
    else Except.error (unsupportedMsg mimetype ext)

/-- The catch at backend lines 119-121: any error is rethrown with the fixed
wrapper text prepended to the underlying message. -/
def wrapFileError (r : Except String String) : Except String String :=
  match r with
  | Except.ok t => Except.ok t
  | Except.error e => Except.error ("Failed to extract text from file: " ++ e)

/-- `extractTextFromFile` (backend lines 72-122): the dispatch body inside the
message-wrapping catch. -/
def extractTextFromFile (pdfReader wordReader : Except String String)
    (content mimetype filename : String) : Except String String :=
  wrapFileError (extractBody pdfReader wordReader content mimetype filename)
theorem leadsWith_eq : ∀ (d l : List Char), leadsWith d l = true → l = d ++ l.drop d.length := by
  intro d
  induction d with
  | nil => intro l _; simp
  | cons a as ih =>
    intro l h
    cases l with
    | nil => simp [leadsWith] at h
    | cons b bs =>
      simp only [leadsWith, Bool.and_eq_true, decide_eq_true_eq] at h
      obtain ⟨h1, h2⟩ := h
      subst h1
      simpa using ih bs h2

theorem leadsWith_self (d t : List Char) : leadsWith d (d ++ t) = true := by
  induction d with
  | nil => rfl
  | cons a as ih => simp [leadsWith, ih]

theorem lazyFind_spec {d : List Char} : ∀ {t g r : List Char}, lazyFind d t = some (g, r) →
    t = g ++ d ++ r ∧ ∀ a ∈ g, a ≠ '\n' := by
  intro t
  induction t with
  | nil => intro g r h; simp [lazyFind] at h
  | cons c cs ih =>
    intro g r h
    by_cases hl : leadsWith d (c :: cs) = true
    · simp only [lazyFind, hl, if_true, Option.some.injEq, Prod.mk.injEq] at h
      obtain ⟨hg, hr⟩ := h
      subst hg; subst hr
      refine ⟨?_, by simp⟩
      simpa using leadsWith_eq d (c :: cs) hl
    · by_cases hc : c = '\n'
      · subst hc
        simp [lazyFind, hl] at h
      · simp only [lazyFind, hl, hc, if_false, if_neg, Bool.false_eq_true] at h
        cases hf : lazyFind d cs with
        | none => rw [hf] at h; simp at h
        | some p =>
          obtain ⟨g', r'⟩ := p
          rw [hf] at h
          simp only [Option.some.injEq, Prod.mk.injEq] at h
          obtain ⟨hg, hr⟩ := h
          subst hg; subst hr
          obtain ⟨ht, hn⟩ := ih hf
          constructor
          · simpa using congrArg (c :: ·) ht
          · intro a ha
            rcases List.mem_cons.mp ha with h | h
            · subst h; exact hc
            · exact hn a h

theorem lazyFind_single {c0 : Char} : ∀ {t g r : List Char},
    lazyFind [c0] t = some (g, r) → ∀ a ∈ g, a ≠ c0 := by
  intro t
  induction t with
  | nil => intro g r h; simp [lazyFind] at h
  | cons c cs ih =>
    intro g r h
    by_cases hl : leadsWith [c0] (c :: cs) = true
    · simp only [lazyFind, hl, if_true, Option.some.injEq, Prod.mk.injEq] at h
      obtain ⟨hg, _⟩ := h
      subst hg; simp
    · have hcc : ¬ c = c0 := by
        intro hcc
        apply hl
        subst hcc
        simp [leadsWith]
      by_cases hc : c = '\n'
      · subst hc
        simp [lazyFind, hl] at h
      · simp only [lazyFind, hl, hc, if_false, if_neg, Bool.false_eq_true] at h
        cases hf : lazyFind [c0] cs with
        | none => rw [hf] at h; simp at h
        | some p =>
          obtain ⟨g', r'⟩ := p
          rw [hf] at h
          simp only [Option.some.injEq, Prod.mk.injEq] at h
          obtain ⟨hg, hr⟩ := h
          subst hg; subst hr
          intro a ha
          rcases List.mem_cons.mp ha with h | h
          · subst h; exact fun he => hcc he
          · exact ih hf a h

theorem stripWrapGo_drop (d : List Char) : ∀ (l : List Char) (k : Nat),
    stripWrapGo d l k = stripWrapGo d (l.drop k) 0 := by
  intro l
  induction l with
  | nil => intro k; simp [stripWrapGo]
  | cons c cs ih =>
    intro k
    cases k with
    | zero => rfl
    | succ k' =>
      show stripWrapGo d cs k' = _
      rw [ih k']
      rfl

theorem stripHeadGo_drop (d : List Char) : ∀ (l : List Char) (k : Nat),
    stripHeadGo d l k = stripHeadGo d (l.drop k) 0 := by
  intro l
  induction l with
  | nil => intro k; simp [stripHeadGo]
  | cons c cs ih =>
    intro k
    cases k with
    | zero => rfl
    | succ k' =>
      show stripHeadGo d cs k' = _
      rw [ih k']
      rfl

theorem linkGo_drop : ∀ (l : List Char) (k : Nat),
    linkGo l k = linkGo (l.drop k) 0 := by
  intro l
  induction l with
  | nil => intro k; simp [linkGo]
  | cons c cs ih =>
    intro k
    cases k with
    | zero => rfl
    | succ k' =>
      show linkGo cs k' = _
      rw [ih k']
      rfl

theorem stripWrap_nil (d : List Char) : stripWrap d [] = [] := rfl

theorem stripWrap_cons_neg {d : List Char} {c : Char} {cs : List Char}
    (h : ¬ leadsWith d (c :: cs) = true) :
    stripWrap d (c :: cs) = c :: stripWrap d cs := by
  simp [stripWrap, stripWrapGo, h]

theorem stripWrap_cons_none {d : List Char} {c : Char} {cs : List Char}
    (h2 : lazyFind d ((c :: cs).drop d.length) = none) :
    stripWrap d (c :: cs) = c :: stripWrap d cs := by
  by_cases h : leadsWith d (c :: cs) = true
  · simp [stripWrap, stripWrapGo, h, h2]
  · simp [stripWrap, stripWrapGo, h]

theorem wrap_decomp {d l g r : List Char}
    (hl : leadsWith d l = true) (hf : lazyFind d (l.drop d.length) = some (g, r)) :
    l = (d ++ g ++ d) ++ r := by
  have h1 : l = d ++ (l.drop d.length) := leadsWith_eq d l hl
  rw [(lazyFind_spec hf).1] at h1
  simpa [List.append_assoc] using h1

theorem stripWrap_jump {d l g r : List Char} (hd : d ≠ [])
    (hl : leadsWith d l = true) (hf : lazyFind d (l.drop d.length) = some (g, r)) :
    stripWrap d l = g ++ stripWrap d r := by
  cases l with
  | nil =>
    cases d with
    | nil => exact absurd rfl hd
    | cons a as => simp [leadsWith] at hl
  | cons c cs =>
    have hdl : 0 < d.length := List.length_pos.mpr hd
    have heq : (c :: cs : List Char) = (d ++ g ++ d) ++ r := wrap_decomp hl hf
    have h2 : List.drop (d ++ g ++ d).length (c :: cs) = r := by
      rw [heq]; exact List.drop_left _ _
    have hlen : (d ++ g ++ d).length = d.length + g.length + d.length := by
      simp [List.length_append]
      omega
    rw [hlen] at h2
    have hdrop : cs.drop (d.length + g.length + d.length - 1) = r := by
      have h3 : d.length + g.length + d.length = (d.length + g.length + d.length - 1) + 1 := by
        omega
      rw [h3, List.drop_succ_cons] at h2
      exact h2
    calc stripWrap d (c :: cs)
        = g ++ stripWrapGo d cs (d.length + g.length + d.length - 1) := by
          simp [stripWrap, stripWrapGo, hl, hf]
      _ = g ++ stripWrap d r := by
          rw [stripWrapGo_drop, hdrop]; rfl

theorem stripWrap_shrink {d l g r : List Char} (hd : d ≠ [])
    (hl : leadsWith d l = true) (hf : lazyFind d (l.drop d.length) = some (g, r)) :
    r.length + 2 ≤ l.length := by
  have hdl : 0 < d.length := List.length_pos.mpr hd
  have heq := wrap_decomp hl hf
  have hlen := congrArg List.length heq
  simp [List.length_append] at hlen
  omega
theorem np_mono {c : Char} : ∀ {l : List Char},
    noPairAux c true l = true → noPairAux c false l = true := by
  intro l
  induction l with
  | nil => intro _; rfl
  | cons x xs ih =>
    intro h
    by_cases hx : x = '\n'
    · subst hx
      simp only [noPairAux, if_pos rfl] at h ⊢
      exact h
    · by_cases hxc : x = c
      · subst hxc
        simp [noPairAux, hx] at h
      · simp only [noPairAux, if_neg hx, if_neg hxc] at h ⊢
        exact ih h

theorem np_tail {c x : Char} {xs : List Char} (h : noPair c (x :: xs) = true) :
    noPair c xs = true := by
  unfold noPair at h ⊢
  by_cases hx : x = '\n'
  · subst hx
    simpa only [noPairAux, if_pos rfl] using h
  · by_cases hxc : x = c
    · subst hxc
      simp only [noPairAux, if_neg hx, if_pos rfl, if_neg Bool.false_ne_true] at h
      exact np_mono h
    · simpa only [noPairAux, if_neg hx, if_neg hxc] using h

theorem np_walk {c : Char} : ∀ (g : List Char), (∀ a ∈ g, a ≠ c ∧ a ≠ '\n') →
    ∀ (s : Bool) (t : List Char), noPairAux c s (g ++ t) = noPairAux c s t := by
  intro g
  induction g with
  | nil => intro _ s t; rfl
  | cons a as ih =>
    intro hg s t
    have ha := hg a (List.mem_cons_self a as)
    simp only [List.cons_append, noPairAux, if_neg ha.2, if_neg ha.1]
    exact ih (fun b hb => hg b (List.mem_cons_of_mem a hb)) s t

theorem np_filter {c : Char} : ∀ (s : Bool) (l : List Char),
    noPairAux c s l = noPairAux c s (l.filter (fun x => x == c || x == '\n')) := by
  intro s l
  induction l generalizing s with
  | nil => rfl
  | cons x xs ih =>
    by_cases hx : x = '\n'
    · subst hx
      have hp : ((('\n' : Char) == c) || (('\n' : Char) == '\n')) = true := by simp
      simp only [List.filter_cons, hp, if_true, noPairAux, if_pos rfl]
      exact ih false
    · by_cases hxc : x = c
      · subst hxc
        have hp : ((x == x) || (x == '\n')) = true := by simp
        simp only [List.filter_cons, hp, if_true, noPairAux, if_neg hx, if_pos rfl]
        cases s with
        | false => exact ih true
        | true => rfl
      · have hp : ((x == c) || (x == '\n')) = false := by
          simp [hxc, hx]
        simp only [List.filter_cons, hp, Bool.false_eq_true, if_false, noPairAux,
          if_neg hx, if_neg hxc]
        exact ih s

theorem stripWrap_filter {d : List Char} (hd : d ≠ []) {P : Char → Bool}
    (hP : ∀ a ∈ d, P a = false) :
    ∀ (l : List Char), (stripWrap d l).filter P = l.filter P := by
  suffices h : ∀ (n : Nat) (l : List Char), l.length ≤ n →
      (stripWrap d l).filter P = l.filter P by
    intro l; exact h l.length l le_rfl
  intro n
  induction n with
  | zero =>
    intro l hl
    have : l = [] := List.length_eq_zero.mp (Nat.le_zero.mp hl)
    subst this; rfl
  | succ n ih =>
    intro l hl
    cases l with
    | nil => rfl
    | cons c cs =>
      have hcs : cs.length ≤ n := by simp at hl; omega
      by_cases hlead : leadsWith d (c :: cs) = true
      · cases hf : lazyFind d ((c :: cs).drop d.length) with
        | none =>
          rw [stripWrap_cons_none hf]
          simp only [List.filter_cons]
          rw [ih cs hcs]
        | some p =>
          obtain ⟨g, r⟩ := p
          rw [stripWrap_jump hd hlead hf]
          have hshr := stripWrap_shrink hd hlead hf
          have hr : r.length ≤ n := by
            simp at hl hshr
            omega
          rw [List.filter_append, ih r hr]
          have heq := wrap_decomp hlead hf
          rw [heq]
          have hdP : d.filter P = [] := List.filter_eq_nil_iff.mpr (by
            intro a ha
            simp [hP a ha])
          simp [hdP, List.filter_append]
      · rw [stripWrap_cons_neg hlead]
        simp only [List.filter_cons]
        rw [ih cs hcs]

theorem stripWrap_single_noPair {c : Char} (hc : c ≠ '\n') :
    ∀ (l : List Char), noPair c (stripWrap [c] l) = true := by
  suffices h : ∀ (n : Nat) (l : List Char), l.length ≤ n →
      (noPairAux c false (stripWrap [c] l) = true ∧
        (lazyFind [c] l = none → noPairAux c true (stripWrap [c] l) = true)) by
    intro l; exact (h l.length l le_rfl).1
  intro n
  induction n with
  | zero =>
    intro l hl
    have : l = [] := List.length_eq_zero.mp (Nat.le_zero.mp hl)
    subst this
    exact ⟨rfl, fun _ => rfl⟩
  | succ n ih =>
    intro l hl
    cases l with
    | nil => exact ⟨rfl, fun _ => rfl⟩
    | cons x xs =>
      have hxs : xs.length ≤ n := by simp at hl; omega
      constructor
      · by_cases hx : x = c
        · subst hx
          have hlead : leadsWith [x] (x :: xs) = true := by simp [leadsWith]
          cases hf : lazyFind [x] ((x :: xs).drop ([x] : List Char).length) with
          | some p =>
            obtain ⟨g, r⟩ := p
            rw [stripWrap_jump (by simp) hlead hf]
            have hg1 := (lazyFind_spec hf).2
            have hg2 := lazyFind_single hf
            rw [np_walk g (fun a ha => ⟨hg2 a ha, hg1 a ha⟩) false _]
            have hr : r.length ≤ n := by
              have := stripWrap_shrink (by simp) hlead hf
              simp at hl this ⊢
              omega
            exact (ih r hr).1
          | none =>
            rw [stripWrap_cons_none hf]
            simp only [noPairAux, if_neg hc, if_pos rfl, if_neg Bool.false_ne_true]
            have hf' : lazyFind [x] xs = none := by simpa using hf
            exact (ih xs hxs).2 hf'
        · have hlead : ¬ leadsWith [c] (x :: xs) = true := by
            simp only [leadsWith, Bool.and_eq_true, decide_eq_true_eq]
            intro hcx
            exact hx hcx.1.symm
          rw [stripWrap_cons_neg hlead]
          by_cases hxn : x = '\n'
          · subst hxn
            simp only [noPairAux, if_pos rfl]
            exact (ih xs hxs).1
          · simp only [noPairAux, if_neg hxn, if_neg hx]
            exact (ih xs hxs).1
      · intro hnone
        have hlead : ¬ leadsWith [c] (x :: xs) = true := by
          intro hl2
          simp [lazyFind, hl2] at hnone
        have hx : ¬ x = c := by
          intro hxx
          exact hlead (by subst hxx; simp [leadsWith])
        rw [stripWrap_cons_neg hlead]
        by_cases hxn : x = '\n'
        · subst hxn
          simp only [noPairAux, if_pos rfl]
          exact (ih xs hxs).1
        · have htail : lazyFind [c] xs = none := by
            cases hfx : lazyFind [c] xs with
            | none => rfl
            | some p =>
              obtain ⟨g, r⟩ := p
              simp [lazyFind, hlead, hxn, hfx] at hnone
          simp only [noPairAux, if_neg hxn, if_neg hx]
          exact (ih xs hxs).2 htail

theorem noPair_noWrapMatch {c : Char} (hc : c ≠ '\n') {d : List Char}
    (hd : d ≠ []) (hall : ∀ a ∈ d, a = c) :
    ∀ (l : List Char), noPair c l = true → hasWrapMatch d l = false := by
  intro l
  induction l with
  | nil => intro _; rfl
  | cons x xs ih =>
    intro hnp
    simp only [hasWrapMatch, Bool.or_eq_false_iff]
    refine ⟨?_, ih (np_tail hnp)⟩
    by_cases hlead : leadsWith d (x :: xs) = true
    · cases hf : lazyFind d ((x :: xs).drop d.length) with
      | none => simp [hf]
      | some p =>
        obtain ⟨g, r⟩ := p
        exfalso
        have heq := wrap_decomp hlead hf
        cases d with
        | nil => exact hd rfl
        | cons d0 d' =>
          have hd0 : d0 = c := hall d0 (by simp)
          rw [hd0] at heq hf
          cases d' with
          | nil =>
            have hg1 := (lazyFind_spec hf).2
            have hg2 := lazyFind_single hf
            have hfalse : noPair c (x :: xs) = false := by
              rw [heq]
              unfold noPair
              have hshape : (([c] ++ g ++ [c]) ++ r : List Char) = c :: (g ++ (c :: r)) := by
                simp
              rw [hshape]
              simp only [noPairAux, if_neg hc, if_pos rfl, if_neg Bool.false_ne_true]
              rw [np_walk g (fun a ha => ⟨hg2 a ha, hg1 a ha⟩) true _]
              simp [noPairAux, hc]
            rw [hfalse] at hnp
            exact Bool.false_ne_true hnp
          | cons d1 d'' =>
            have hd1 : d1 = c := hall d1 (by simp [hd0])
            rw [hd1] at heq
            have hfalse : noPair c (x :: xs) = false := by
              rw [heq]
              have hshape : (((c :: c :: d'') ++ g ++ (c :: c :: d'')) ++ r : List Char) =
                  c :: c :: (d'' ++ g ++ (c :: c :: d'') ++ r) := by
                simp
              rw [hshape]
              unfold noPair
              simp [noPairAux, hc]
            rw [hfalse] at hnp
            exact Bool.false_ne_true hnp
    · simp [hlead]

theorem noMatch_stripWrap_id {d : List Char} :
    ∀ (l : List Char), hasWrapMatch d l = false → stripWrap d l = l := by
  intro l
  induction l with
  | nil => intro _; rfl
  | cons x xs ih =>
    intro h
    simp only [hasWrapMatch, Bool.or_eq_false_iff, Bool.and_eq_false_iff] at h
    obtain ⟨h1, h2⟩ := h
    rcases h1 with h1 | h1
    · rw [stripWrap_cons_neg (by simp [h1]), ih h2]
    · have hn : lazyFind d ((x :: xs).drop d.length) = none :=
        Option.not_isSome_iff_eq_none.mp (by simp [h1])
      rw [stripWrap_cons_none hn, ih h2]

theorem noPair_stripWrap_id {c : Char} (hc : c ≠ '\n') {d : List Char}
    (hd : d ≠ []) (hall : ∀ a ∈ d, a = c) {l : List Char}
    (hnp : noPair c l = true) : stripWrap d l = l :=
  noMatch_stripWrap_id l (noPair_noWrapMatch hc hd hall l hnp)

theorem noPair_preserve {c : Char} {d : List Char} (hd : d ≠ [])
    (hdc : ∀ a ∈ d, (a == c || a == '\n') = false) (l : List Char) :
    noPair c (stripWrap d l) = noPair c l := by
  unfold noPair
  rw [np_filter false (stripWrap d l), np_filter false l,
    stripWrap_filter hd hdc l]
theorem mem_of_mem_dropWhile {p : Char → Bool} {a : Char} :
    ∀ {l : List Char}, a ∈ l.dropWhile p → a ∈ l := by
  intro l
  induction l with
  | nil => intro h; simp at h
  | cons x xs ih =>
    intro h
    by_cases hx : p x = true
    · rw [List.dropWhile_cons, if_pos hx] at h
      exact List.mem_cons_of_mem _ (ih h)
    · rw [List.dropWhile_cons, if_neg hx] at h
      exact h

theorem drop_countWs : ∀ (l : List Char), l.drop (countWs l) = l.dropWhile isJsWs := by
  intro l
  induction l with
  | nil => rfl
  | cons x xs ih =>
    by_cases hx : isJsWs x = true
    · simp only [countWs, List.takeWhile_cons, hx, if_true, List.length_cons,
        List.drop_succ_cons, List.dropWhile_cons]
      simpa [countWs] using ih
    · simp [countWs, List.takeWhile_cons, hx, List.dropWhile_cons]

theorem stripHead_cons_neg {d : List Char} {c : Char} {cs : List Char}
    (h : ¬ leadsWith d (c :: cs) = true) :
    stripHead d (c :: cs) = c :: stripHead d cs := by
  simp [stripHead, stripHeadGo, h]

theorem stripHead_jump {d : List Char} (hd : d ≠ []) {l : List Char}
    (hl : leadsWith d l = true) :
    stripHead d l = stripHead d ((l.drop d.length).dropWhile isJsWs) := by
  cases l with
  | nil =>
    cases d with
    | nil => exact absurd rfl hd
    | cons a as => simp [leadsWith] at hl
  | cons c cs =>
    have hdl : 0 < d.length := List.length_pos.mpr hd
    show stripHeadGo d (c :: cs) 0 = _
    simp only [stripHeadGo, hl, if_true]
    rw [stripHeadGo_drop]
    have h1 : cs.drop (d.length + countWs ((c :: cs).drop d.length) - 1)
        = ((c :: cs).drop d.length).dropWhile isJsWs := by
      have h2 : d.length + countWs ((c :: cs).drop d.length) - 1 + 1
          = d.length + countWs ((c :: cs).drop d.length) := by omega
      have h3 : cs.drop (d.length + countWs ((c :: cs).drop d.length) - 1)
          = (c :: cs).drop (d.length + countWs ((c :: cs).drop d.length)) := by
        conv_rhs => rw [← h2]
        rw [List.drop_succ_cons]
      rw [h3]
      have e1 : (((c :: cs).drop d.length).drop (countWs ((c :: cs).drop d.length)))
          = (c :: cs).drop (d.length + countWs ((c :: cs).drop d.length)) := by
        rw [List.drop_drop, Nat.add_comm]
      rw [← e1, drop_countWs]
    rw [h1]
    rfl

theorem length_dropWhile_le {p : Char → Bool} :
    ∀ (l : List Char), (l.dropWhile p).length ≤ l.length := by
  intro l
  induction l with
  | nil => exact Nat.le_refl _
  | cons x xs ih =>
    by_cases hx : p x = true
    · rw [List.dropWhile_cons, if_pos hx]
      exact Nat.le_trans ih (by simp)
    · rw [List.dropWhile_cons, if_neg hx]

theorem stripHead_shrink {d : List Char} (hd : d ≠ []) {l : List Char}
    (hl : leadsWith d l = true) :
    ((l.drop d.length).dropWhile isJsWs).length < l.length := by
  cases l with
  | nil =>
    cases d with
    | nil => exact absurd rfl hd
    | cons a as => simp [leadsWith] at hl
  | cons c cs =>
    have hdl : 0 < d.length := List.length_pos.mpr hd
    have h1 : (((c :: cs).drop d.length).dropWhile isJsWs).length
        ≤ ((c :: cs).drop d.length).length := length_dropWhile_le _
    have h2 : ((c :: cs).drop d.length).length = (c :: cs).length - d.length :=
      List.length_drop _ _
    simp only [List.length_cons] at h1 h2 ⊢
    omega

theorem stripHead_mem {d : List Char} (hd : d ≠ []) :
    ∀ (l : List Char) (a : Char), a ∈ stripHead d l → a ∈ l := by
  suffices h : ∀ (n : Nat) (l : List Char), l.length ≤ n →
      ∀ a, a ∈ stripHead d l → a ∈ l by
    intro l a; exact h l.length l le_rfl a
  intro n
  induction n with
  | zero =>
    intro l hl a ha
    have : l = [] := List.length_eq_zero.mp (Nat.le_zero.mp hl)
    subst this
    simp [stripHead, stripHeadGo] at ha
  | succ n ih =>
    intro l hl a ha
    cases l with
    | nil => simp [stripHead, stripHeadGo] at ha
    | cons c cs =>
      by_cases hlead : leadsWith d (c :: cs) = true
      · rw [stripHead_jump hd hlead] at ha
        have hlt := stripHead_shrink hd (l := c :: cs) hlead
        have hrec := ih _ (by simp only [List.length_cons] at hl hlt ⊢; omega) a ha
        have h2 := mem_of_mem_dropWhile hrec
        exact (List.drop_sublist _ _).subset h2
      · rw [stripHead_cons_neg hlead] at ha
        rcases List.mem_cons.mp ha with h | h
        · simp [h]
        · exact List.mem_cons_of_mem _
            (ih cs (by simp only [List.length_cons] at hl; omega) a h)

theorem stripHead_id {c0 : Char} {d' : List Char} :
    ∀ (l : List Char), c0 ∉ l → stripHead (c0 :: d') l = l := by
  intro l
  induction l with
  | nil => intro _; rfl
  | cons x xs ih =>
    intro h
    have hx : x ≠ c0 := by
      intro hx
      exact h (by simp [hx])
    have hlead : ¬ leadsWith (c0 :: d') (x :: xs) = true := by
      simp only [leadsWith, Bool.and_eq_true, decide_eq_true_eq]
      rintro ⟨h1, -⟩
      exact hx h1.symm
    rw [stripHead_cons_neg hlead, ih (fun hm => h (List.mem_cons_of_mem _ hm))]

theorem stripWrap_id_not_mem {c0 : Char} {d' : List Char} :
    ∀ (l : List Char), c0 ∉ l → stripWrap (c0 :: d') l = l := by
  intro l
  induction l with
  | nil => intro _; rfl
  | cons x xs ih =>
    intro h
    have hx : x ≠ c0 := by
      intro hx
      exact h (by simp [hx])
    have hlead : ¬ leadsWith (c0 :: d') (x :: xs) = true := by
      simp only [leadsWith, Bool.and_eq_true, decide_eq_true_eq]
      rintro ⟨h1, -⟩
      exact hx h1.symm
    rw [stripWrap_cons_neg hlead, ih (fun hm => h (List.mem_cons_of_mem _ hm))]

theorem stripLinks_id : ∀ (l : List Char), '[' ∉ l → stripLinks l = l := by
  intro l
  induction l with
  | nil => intro _; rfl
  | cons x xs ih =>
    intro h
    have hx : ¬ x = '[' := by
      intro hx
      exact h (by simp [hx])
    show linkGo (x :: xs) 0 = x :: xs
    simp only [linkGo, if_neg hx]
    exact congrArg (x :: ·) (ih (fun hm => h (List.mem_cons_of_mem _ hm)))

theorem not_mem_of_filter_single {c0 : Char} {l : List Char}
    (h : l.filter (fun x => x == c0) = []) : c0 ∉ l := by
  intro hm
  have : c0 ∈ l.filter (fun x => x == c0) := List.mem_filter.mpr ⟨hm, by simp⟩
  rw [h] at this
  simp at this

theorem filter_single_nil {c0 : Char} {l : List Char} (h : c0 ∉ l) :
    l.filter (fun x => x == c0) = [] := by
  refine List.filter_eq_nil_iff.mpr ?_
  intro a ha
  simp only [beq_iff_eq]
  intro he
  subst he
  exact h ha
theorem stripHead_not_mem {d : List Char} (hd : d ≠ []) {a : Char} {l : List Char}
    (h : a ∉ l) : a ∉ stripHead d l :=
  fun hm => h (stripHead_mem hd l a hm)

theorem emph_filter {P : Char → Bool} (h1 : P '*' = false) (h2 : P '_' = false)
    (l : List Char) : (emphChainL l).filter P = l.filter P := by
  unfold emphChainL
  rw [stripWrap_filter (by simp) (by intro a ha; simp at ha; subst ha; exact h2),
    stripWrap_filter (by simp) (by intro a ha; simp at ha; subst ha; exact h2),
    stripWrap_filter (by simp) (by intro a ha; simp at ha; subst ha; exact h1),
    stripWrap_filter (by simp) (by intro a ha; simp at ha; subst ha; exact h1),
    stripWrap_filter (by simp) (by intro a ha; simp at ha; subst ha; exact h1)]

theorem emph_not_mem {c0 : Char} (h1 : c0 ≠ '*') (h2 : c0 ≠ '_') {l : List Char}
    (h : c0 ∉ l) : c0 ∉ emphChainL l := by
  have hf := emph_filter (P := fun x => x == c0)
    (by simp; exact fun e => h1 e.symm) (by simp; exact fun e => h2 e.symm) l
  exact not_mem_of_filter_single (by rw [hf]; exact filter_single_nil h)

theorem wrap_not_mem {c0 d0 : Char} {d' : List Char} (hne : d0 ≠ c0)
    (hall : ∀ a ∈ d', a = d0) {l : List Char} (h : c0 ∉ l) :
    c0 ∉ stripWrap (d0 :: d') l := by
  have hf := stripWrap_filter (d := d0 :: d') (by simp) (P := fun x => x == c0)
    (by
      intro a ha
      rcases List.mem_cons.mp ha with h' | h'
      · subst h'; simp; exact fun e => hne e
      · rw [hall a h']; simp; exact fun e => hne e) l
  exact not_mem_of_filter_single (by rw [hf]; exact filter_single_nil h)

theorem emph_noPair_star (l : List Char) : noPair '*' (emphChainL l) = true := by
  unfold emphChainL
  rw [noPair_preserve (by simp) (by decide) _, noPair_preserve (by simp) (by decide) _]
  exact stripWrap_single_noPair (by decide) _

theorem emph_noPair_und (l : List Char) : noPair '_' (emphChainL l) = true := by
  unfold emphChainL
  exact stripWrap_single_noPair (by decide) _

theorem core_noPair_star (l : List Char) :
    noPair '*' (stripWrap [bq] (emphChainL l)) = true := by
  rw [noPair_preserve (by simp) (by decide) _]
  exact emph_noPair_star l

theorem core_noPair_und (l : List Char) :
    noPair '_' (stripWrap [bq] (emphChainL l)) = true := by
  rw [noPair_preserve (by simp) (by decide) _]
  exact emph_noPair_und l

theorem core_noPair_bq (l : List Char) :
    noPair bq (stripWrap [bq] (emphChainL l)) = true :=
  stripWrap_single_noPair (by decide) _

theorem backend_eq_core (l : List Char) (hh : '#' ∉ l) (hb : '[' ∉ l) :
    simplifyNotesCleanupL l = stripWrap [bq] (emphChainL l) := by
  unfold simplifyNotesCleanupL
  have hhE : '#' ∉ emphChainL l := emph_not_mem (by decide) (by decide) hh
  have hbE : '[' ∉ emphChainL l := emph_not_mem (by decide) (by decide) hb
  rw [stripHead_id (emphChainL l) hhE, stripHead_id (emphChainL l) hhE,
    stripHead_id (emphChainL l) hhE]
  have hbB : '[' ∉ stripWrap [bq] (emphChainL l) :=
    wrap_not_mem (by decide) (by simp) hbE
  rw [stripLinks_id _ hbB]

theorem frontend_eq_core (l : List Char) (hh : '#' ∉ l) :
    formattedNotesCleanupL l = stripWrap [bq] (emphChainL l) := by
  unfold formattedNotesCleanupL
  have hhE : '#' ∉ emphChainL l := emph_not_mem (by decide) (by decide) hh
  have hhB : '#' ∉ stripWrap [bq] (emphChainL l) :=
    wrap_not_mem (by decide) (by simp) hhE
  rw [stripHead_id (stripWrap [bq] (emphChainL l)) hhB,
    stripHead_id (stripWrap [bq] (emphChainL l)) hhB,
    stripHead_id (stripWrap [bq] (emphChainL l)) hhB]

theorem core_not_hash (l : List Char) (hh : '#' ∉ l) :
    '#' ∉ stripWrap [bq] (emphChainL l) :=
  wrap_not_mem (by decide) (by simp) (emph_not_mem (by decide) (by decide) hh)

theorem core_not_bracket (l : List Char) (hb : '[' ∉ l) :
    '[' ∉ stripWrap [bq] (emphChainL l) :=
  wrap_not_mem (by decide) (by simp) (emph_not_mem (by decide) (by decide) hb)

theorem emph_fixed_of_core (l : List Char) :
    emphChainL (stripWrap [bq] (emphChainL l)) = stripWrap [bq] (emphChainL l) := by
  have hs := core_noPair_star l
  have hu := core_noPair_und l
  show stripWrap ['_'] (stripWrap ['_', '_'] (stripWrap ['*'] (stripWrap ['*', '*']
      (stripWrap ['*', '*', '*'] (stripWrap [bq] (emphChainL l))))))
    = stripWrap [bq] (emphChainL l)
  rw [noPair_stripWrap_id (c := '*') (by decide) (by simp) (by decide) hs,
    noPair_stripWrap_id (c := '*') (by decide) (by simp) (by decide) hs,
    noPair_stripWrap_id (c := '*') (by decide) (by simp) (by decide) hs,
    noPair_stripWrap_id (c := '_') (by decide) (by simp) (by decide) hu,
    noPair_stripWrap_id (c := '_') (by decide) (by simp) (by decide) hu]

theorem core_fixed (l : List Char) :
    stripWrap [bq] (emphChainL (stripWrap [bq] (emphChainL l)))
      = stripWrap [bq] (emphChainL l) := by
  rw [emph_fixed_of_core l]
  exact noPair_stripWrap_id (c := bq) (by decide) (by simp) (by simp) (core_noPair_bq l)
theorem dropWhile_head_not {p : Char → Bool} :
    ∀ {m : List Char} {a : Char}, (m.dropWhile p).head? = some a → p a = false := by
  intro m
  induction m with
  | nil => intro a h; simp at h
  | cons x xs ih =>
    intro a h
    by_cases hx : p x = true
    · rw [List.dropWhile_cons, if_pos hx] at h
      exact ih h
    · rw [List.dropWhile_cons, if_neg hx] at h
      simp only [List.head?_cons, Option.some.injEq] at h
      subst h
      simpa using hx

theorem dropWhile_idem {p : Char → Bool} :
    ∀ (m : List Char), (m.dropWhile p).dropWhile p = m.dropWhile p := by
  intro m
  induction m with
  | nil => rfl
  | cons x xs ih =>
    by_cases hx : p x = true
    · rw [List.dropWhile_cons, if_pos hx]
      exact ih
    · rw [List.dropWhile_cons, if_neg hx, List.dropWhile_cons, if_neg hx]

theorem getLast?_cons_of_ne {a : Char} {as : List Char} (h : as ≠ []) :
    (a :: as).getLast? = as.getLast? := by
  cases as with
  | nil => exact absurd rfl h
  | cons b bs => simp [List.getLast?_cons_cons]

theorem getLast?_dropWhile {p : Char → Bool} :
    ∀ (m : List Char), m.dropWhile p ≠ [] → (m.dropWhile p).getLast? = m.getLast? := by
  intro m
  induction m with
  | nil => intro h; exact absurd rfl h
  | cons x xs ih =>
    intro h
    by_cases hx : p x = true
    · rw [List.dropWhile_cons, if_pos hx] at h ⊢
      rw [ih h]
      refine (getLast?_cons_of_ne ?_).symm
      intro hxs
      subst hxs
      simp at h
    · rw [List.dropWhile_cons, if_neg hx]

theorem trimL_idem (l : List Char) : trimL (trimL l) = trimL l := by
  unfold trimL dropTrailWs
  have step1 : (((l.dropWhile isJsWs).reverse.dropWhile isJsWs).reverse).dropWhile isJsWs
      = ((l.dropWhile isJsWs).reverse.dropWhile isJsWs).reverse := by
    cases hyy : ((l.dropWhile isJsWs).reverse.dropWhile isJsWs).reverse with
    | nil => rfl
    | cons a t' =>
      have hy_ne : (l.dropWhile isJsWs).reverse.dropWhile isJsWs ≠ [] := by
        intro h0
        rw [h0] at hyy
        simp at hyy
      have h1 : (((l.dropWhile isJsWs).reverse.dropWhile isJsWs).reverse).head? = some a := by
        rw [hyy]; rfl
      rw [List.head?_reverse] at h1
      rw [getLast?_dropWhile _ hy_ne, List.getLast?_reverse] at h1
      have h5 : isJsWs a = false := dropWhile_head_not h1
      rw [List.dropWhile_cons, if_neg (by simp [h5])]
  rw [step1, List.reverse_reverse, dropWhile_idem]

theorem jsTrim_idem (s : String) : jsTrim (jsTrim s) = jsTrim s := by
  unfold jsTrim
  rw [show (String.mk (trimL s.data)).data = trimL s.data from rfl, trimL_idem]

theorem classifyLine_content_trim (line : String) :
    jsTrim (classifyLine line).content = (classifyLine line).content := by
  unfold classifyLine
  by_cases h1 : jsTrim line = ""
  · simp only [h1, if_pos rfl]
    rfl
  · by_cases h2 : headMatches (jsTrim line) = true
    · simp only [h1, if_neg h1, h2, if_pos h2]
      exact jsTrim_idem line
    · by_cases h3 : bulletStart (jsTrim line) = true
      · simp only [h1, if_neg h1, h2, if_neg h2, h3, if_pos h3]
        exact jsTrim_idem _
      · simp only [h1, if_neg h1, h2, if_neg h2, h3, if_neg h3]
        exact jsTrim_idem line

theorem restore_classifyLine (line : String) :
    restoreContent (classifyLine line) = bulletCollapse (jsTrim line) := by
  by_cases h1 : jsTrim line = ""
  · have e1 : classifyLine line = ⟨BlockKind.Spacer, ""⟩ := by
      unfold classifyLine
      simp [h1]
    rw [e1, h1]
    rfl
  · cases hdat : (jsTrim line).data with
    | nil =>
      exfalso
      apply h1
      apply String.ext
      rw [hdat]
    | cons c rest =>
      by_cases h2 : isHeaderStart c = true
      · have hm : headMatches (jsTrim line) = true := by
          unfold headMatches
          rw [hdat]
          exact h2
        have e1 : classifyLine line = ⟨BlockKind.Header, jsTrim line⟩ := by
          unfold classifyLine
          simp [h1, hm]
        have hcb : c ≠ '•' := by
          intro he
          rw [he] at h2
          exact absurd h2 (by decide)
        have hbs : bulletStart (jsTrim line) = false := by
          unfold bulletStart
          rw [hdat]
          simp [hcb]
        rw [e1]
        show jsTrim line = bulletCollapse (jsTrim line)
        unfold bulletCollapse
        rw [hbs]
        simp
      · by_cases h3 : c = '•'
        · have hbs : bulletStart (jsTrim line) = true := by
            unfold bulletStart
            rw [hdat]
            simp [h3]
          have hm : headMatches (jsTrim line) = false := by
            unfold headMatches
            rw [hdat]
            simpa using h2
          have e1 : classifyLine line
              = ⟨BlockKind.Bullet, jsTrim (String.mk ((jsTrim line).data.drop 1))⟩ := by
            unfold classifyLine
            simp [h1, hm, hbs]
          rw [e1]
          show ("•" ++ jsTrim (String.mk ((jsTrim line).data.drop 1)))
              = bulletCollapse (jsTrim line)
          unfold bulletCollapse
          rw [hbs]
          simp
        · have hbs : bulletStart (jsTrim line) = false := by
            unfold bulletStart
            rw [hdat]
            simp [h3]
          have hm : headMatches (jsTrim line) = false := by
            unfold headMatches
            rw [hdat]
            simpa using h2
          have e1 : classifyLine line = ⟨BlockKind.Paragraph, jsTrim line⟩ := by
            unfold classifyLine
            simp [h1, hm, hbs]
          rw [e1]
          show jsTrim line = bulletCollapse (jsTrim line)
          unfold bulletCollapse
          rw [hbs]
          simp
/-- C2 (confirmed): the PDF extractor never propagates an error.  On any reader
failure it returns the fixed degraded-result placeholder as an ordinary result;
on reader success it returns the trimmed text, or the empty-text placeholder
when the text trims to empty; and under the `application/pdf` MIME type the
file-level extractor always returns a success carrying that string, whatever the
reader outcome. -/
theorem c2_pdf_never_fails (pdfReader : Except String String) :
    (∀ e, pdfReader = Except.error e → extractTextFromPDF pdfReader = pdfFailMsg) ∧
    (∀ t, pdfReader = Except.ok t →
      extractTextFromPDF pdfReader
        = (if jsTrim t = "" then "No readable text found in PDF" else jsTrim t)) ∧
    (∀ (wordReader : Except String String) (content filename : String),
      extractTextFromFile pdfReader wordReader content "application/pdf" filename
        = Except.ok (extractTextFromPDF pdfReader)) := by
  refine ⟨?_, ?_, ?_⟩
  · intro e he
    subst he
    rfl
  · intro t ht
    subst ht
    rfl
  · intro w c f
    rfl

/-- C2 witness: a failing reader outcome yields the placeholder as a success. -/
theorem c2_witness :
    extractTextFromPDF (Except.error "boom") = pdfFailMsg ∧
    extractTextFromFile (Except.error "boom") (Except.ok "w") "c" "application/pdf" "f.pdf"
      = Except.ok pdfFailMsg := by
  refine ⟨(c2_pdf_never_fails (Except.error "boom")).1 "boom" rfl, ?_⟩
  rw [(c2_pdf_never_fails (Except.error "boom")).2.2 (Except.ok "w") "c" "f.pdf",
    (c2_pdf_never_fails (Except.error "boom")).1 "boom" rfl]

/-- C6 (confirmed): the Word extractor propagates reader failures as an error
whose message appends the underlying reader message (never a silent empty or
placeholder success), and on success returns the trimmed text or the empty-text
placeholder. -/
theorem c6_word_propagates (wordReader : Except String String) :
    (∀ e, wordReader = Except.error e →
      extractTextFromWord wordReader
        = Except.error ("Failed to extract text from Word document: " ++ e)) ∧
    (∀ v, wordReader = Except.ok v →
      extractTextFromWord wordReader
        = Except.ok (if jsTrim v = "" then "No text found in Word document" else jsTrim v)) := by
  constructor <;> (intro x hx; subst hx; rfl)

/-- C6 witness: a throwing parser yields an error embedding the message. -/
theorem c6_witness :
    extractTextFromWord (Except.error "bad zip")
      = Except.error ("Failed to extract text from Word document: " ++ "bad zip") :=
  (c6_word_propagates _).1 "bad zip" rfl

/-- C3 (confirmed): with an unrecognized MIME type and an unrecognized
lowercased extension, extraction returns the decoded string exactly when its
length lies in the open interval (0, 1000000), and otherwise fails with the
unsupported-file-type error that names the declared type and the extension
(wrapped by the file-level catch prefix). -/
theorem c3_unknown_sniff (pdfReader wordReader : Except String String)
    (content mimetype filename : String)
    (h1 : mimetype ≠ "text/plain") (h2 : mimetype ≠ "application/pdf")
    (h3 : mimetype ≠ mimeWordDocx) (h4 : mimetype ≠ "application/msword")
    (h5 : lowerStr (extname filename) ≠ ".txt")
    (h6 : lowerStr (extname filename) ≠ ".md")
    (h7 : lowerStr (extname filename) ≠ ".csv")
    (h8 : lowerStr (extname filename) ≠ ".pdf")
    (h9 : lowerStr (extname filename) ≠ ".docx")
    (h10 : lowerStr (extname filename) ≠ ".doc") :
    extractTextFromFile pdfReader wordReader content mimetype filename
      = (if 0 < content.length ∧ content.length < 1000000 then Except.ok content
        else Except.error ("Failed to extract text from file: "
          ++ unsupportedMsg mimetype (lowerStr (extname filename)))) := by
  unfold extractTextFromFile extractBody
  rw [if_neg h1, if_neg h2, if_neg (not_or.mpr ⟨h3, h4⟩)]
  simp only []
  rw [if_neg (by rintro (h | h | h) <;> [exact h5 h; exact h6 h; exact h7 h]),
    if_neg h8, if_neg (not_or.mpr ⟨h9, h10⟩)]
  by_cases hb : 0 < content.length ∧ content.length < 1000000
  · rw [if_pos hb, if_pos hb]
    rfl
  · rw [if_neg hb, if_neg hb]
    rfl

/-- C3 witness: a 5-character unknown file is accepted as plain text; an empty
unknown file is rejected with the unsupported-format error. -/
theorem c3_witness :
    extractTextFromFile (Except.error "e") (Except.error "w") "hello" "application/zip" "data.bin"
      = Except.ok "hello" ∧
    extractTextFromFile (Except.error "e") (Except.error "w") "" "application/zip" "data.bin"
      = Except.error ("Failed to extract text from file: "
          ++ unsupportedMsg "application/zip" ".bin") := by
  constructor
  · rw [c3_unknown_sniff (Except.error "e") (Except.error "w") "hello" "application/zip"
      "data.bin" (by decide) (by decide) (by decide) (by decide) (by decide) (by decide)
      (by decide) (by decide) (by decide) (by decide)]
    rw [if_pos (by decide)]
  · rw [c3_unknown_sniff (Except.error "e") (Except.error "w") "" "application/zip"
      "data.bin" (by decide) (by decide) (by decide) (by decide) (by decide) (by decide)
      (by decide) (by decide) (by decide) (by decide)]
    rw [if_neg (by decide)]
    rfl

/-- C7 (confirmed): dispatch resolves in source order.  An exactly matching
declared MIME type selects the corresponding leaf extractor regardless of the
filename; otherwise a recognized lowercased extension selects the
extension-implied extractor. -/
theorem c7_dispatch (pdfReader wordReader : Except String String)
    (content mimetype filename : String) :
    (mimetype = "text/plain" →
      extractTextFromFile pdfReader wordReader content mimetype filename
        = Except.ok content) ∧
    (mimetype = "application/pdf" →
      extractTextFromFile pdfReader wordReader content mimetype filename
        = Except.ok (extractTextFromPDF pdfReader)) ∧
    (mimetype = mimeWordDocx ∨ mimetype = "application/msword" →
      extractTextFromFile pdfReader wordReader content mimetype filename
        = wrapFileError (extractTextFromWord wordReader)) ∧
    (mimetype ≠ "text/plain" → mimetype ≠ "application/pdf" → mimetype ≠ mimeWordDocx →
      mimetype ≠ "application/msword" →
      ((lowerStr (extname filename) = ".txt" ∨ lowerStr (extname filename) = ".md" ∨
          lowerStr (extname filename) = ".csv" →
        extractTextFromFile pdfReader wordReader content mimetype filename
          = Except.ok content) ∧
      (lowerStr (extname filename) = ".pdf" →
        extractTextFromFile pdfReader wordReader content mimetype filename
          = Except.ok (extractTextFromPDF pdfReader)) ∧
      (lowerStr (extname filename) = ".docx" ∨ lowerStr (extname filename) = ".doc" →
        extractTextFromFile pdfReader wordReader content mimetype filename
          = wrapFileError (extractTextFromWord wordReader)))) := by
  refine ⟨?_, ?_, ?_, ?_⟩
  · intro h
    subst h
    rfl
  · intro h
    subst h
    rfl
  · intro h
    unfold extractTextFromFile extractBody
    rw [if_neg (by rcases h with h | h <;> (subst h; decide)),
      if_neg (by rcases h with h | h <;> (subst h; decide)), if_pos h]
  · intro h1 h2 h3 h4
    unfold extractTextFromFile extractBody
    rw [if_neg h1, if_neg h2, if_neg (not_or.mpr ⟨h3, h4⟩)]
    simp only []
    refine ⟨?_, ?_, ?_⟩
    · intro h
      rw [if_pos h]
      rfl
    · intro h
      rw [if_neg (by rw [h]; decide), if_pos h]
      rfl
    · intro h
      rw [if_neg (by rcases h with h | h <;> (rw [h]; decide)),
        if_neg (by rcases h with h | h <;> (rw [h]; decide)), if_pos h]

/-- C7 witness: an unknown MIME type with extension `.PDF` dispatches to the PDF
extractor, and a declared Word MIME type dispatches to the Word extractor. -/
theorem c7_witness :
    extractTextFromFile (Except.ok "p") (Except.ok "w") "c" "application/octet-stream" "a.PDF"
      = Except.ok (extractTextFromPDF (Except.ok "p")) ∧
    extractTextFromFile (Except.ok "p") (Except.ok "w") "c" "application/msword" "nofile"
      = wrapFileError (extractTextFromWord (Except.ok "w")) := by
  constructor
  · exact ((c7_dispatch (Except.ok "p") (Except.ok "w") "c" "application/octet-stream"
      "a.PDF").2.2.2 (by decide) (by decide) (by decide) (by decide)).2.1 (by decide)
  · exact (c7_dispatch (Except.ok "p") (Except.ok "w") "c" "application/msword"
      "nofile").2.2.1 (Or.inr rfl)
/-- C9 counterexample: at a concrete unsupported input the surfaced failure is a
single message string carrying the fixed catch-wrapper prefix, so the
unsupported-format error is not surfaced verbatim, and no structured
`errorKind` field exists — only the message text distinguishes the kinds. -/
theorem c9_counterexample :
    extractTextFromFile (Except.error "e") (Except.error "w") "" "application/zip" "data.bin"
      = Except.error ("Failed to extract text from file: "
          ++ unsupportedMsg "application/zip" ".bin") ∧
    ("Failed to extract text from file: " ++ unsupportedMsg "application/zip" ".bin")
      ≠ unsupportedMsg "application/zip" ".bin" := by
  refine ⟨?_, by decide⟩
  rfl

/-- C9 (amended): every failure the extractor surfaces is one message string of
the form catch-prefix plus an inner message, and the inner message is either
the unsupported-file-type text (naming the declared type and extension) or the
Word-extraction failure text with the underlying reader message appended — the
kinds are distinguishable only by message content, not by a structured field. -/
theorem c9_amended (pdfReader wordReader : Except String String)
    (content mimetype filename : String) (e : String)
    (h : extractTextFromFile pdfReader wordReader content mimetype filename
        = Except.error e) :
    ∃ m, e = "Failed to extract text from file: " ++ m ∧
      (m = unsupportedMsg mimetype (lowerStr (extname filename)) ∨
        ∃ u, wordReader = Except.error u ∧
          m = "Failed to extract text from Word document: " ++ u) := by
  unfold extractTextFromFile wrapFileError at h
  cases hb : extractBody pdfReader wordReader content mimetype filename with
  | ok t =>
    rw [hb] at h
    exact absurd h (by simp)
  | error m =>
    rw [hb] at h
    simp only [Except.error.injEq] at h
    refine ⟨m, h.symm, ?_⟩
    simp only [extractBody] at hb
    split_ifs at hb
    · unfold extractTextFromWord at hb
      cases hw : wordReader with
      | ok v =>
        rw [hw] at hb
        exact absurd hb (by simp)
      | error u =>
        rw [hw] at hb
        simp only [Except.error.injEq] at hb
        exact Or.inr ⟨u, rfl, hb.symm⟩
    · unfold extractTextFromWord at hb
      cases hw : wordReader with
      | ok v =>
        rw [hw] at hb
        exact absurd hb (by simp)
      | error u =>
        rw [hw] at hb
        simp only [Except.error.injEq] at hb
        exact Or.inr ⟨u, rfl, hb.symm⟩
    · simp only [Except.error.injEq] at hb
      exact Or.inl hb.symm

/-- C9 witness: the amended shape at a concrete unsupported input. -/
theorem c9_witness :
    ∃ m, ("Failed to extract text from file: " ++ unsupportedMsg "application/zip" ".bin")
        = "Failed to extract text from file: " ++ m ∧
      (m = unsupportedMsg "application/zip" (lowerStr (extname "data.bin")) ∨
        ∃ u, (Except.error "w" : Except String String) = Except.error u ∧
          m = "Failed to extract text from Word document: " ++ u) :=
  c9_amended (Except.error "e") (Except.error "w") "" "application/zip" "data.bin"
    ("Failed to extract text from file: " ++ unsupportedMsg "application/zip" ".bin") rfl

/-- C4 counterexample: the header test of the classifier is the regex
`/^[🎯💡⭐📝🔍]/` without the `u` flag, whose class is the set of UTF-16 code
units of the five glyphs; the line `😀 reminder` therefore classifies as a
header (😀 = U+1F600 shares the high surrogate D83D with 💡, 📝 and 🔍) even
though its first character is none of the five designated glyphs, refuting the
closed-set part of the claim. -/
theorem c4_counterexample :
    classifyLine "😀 reminder" = ⟨BlockKind.Header, "😀 reminder"⟩ ∧
    (jsTrim "😀 reminder").data.head? = some '😀' ∧
    ('😀' ≠ '🎯' ∧ '😀' ≠ '💡' ∧ '😀' ≠ '⭐' ∧ '😀' ≠ '📝' ∧ '😀' ≠ '🔍') := by
  exact ⟨rfl, rfl, by decide⟩

/-- C4 (amended): per-line classification precedence as implemented — empty
after trim is a spacer with empty content; else a first character accepted by
the code-unit level header test (the star glyph or any code point in
U+1F000-U+1F7FF, a superset of the five designated glyphs) gives a header whose
content is the trimmed line unchanged; else a leading bullet glyph gives a
bullet whose content is everything after the glyph re-trimmed; else a paragraph
with the trimmed line. -/
theorem c4_amended (line : String) :
    (jsTrim line = "" → classifyLine line = ⟨BlockKind.Spacer, ""⟩) ∧
    (∀ c rest, (jsTrim line).data = c :: rest → isHeaderStart c = true →
      classifyLine line = ⟨BlockKind.Header, jsTrim line⟩) ∧
    (∀ c rest, (jsTrim line).data = c :: rest → isHeaderStart c = false → c = '•' →
      classifyLine line = ⟨BlockKind.Bullet, jsTrim (String.mk rest)⟩) ∧
    (∀ c rest, (jsTrim line).data = c :: rest → isHeaderStart c = false → c ≠ '•' →
      classifyLine line = ⟨BlockKind.Paragraph, jsTrim line⟩) := by
  refine ⟨?_, ?_, ?_, ?_⟩
  · intro h
    unfold classifyLine
    simp [h]
  · intro c rest hdat hc
    have h1 : jsTrim line ≠ "" := by
      intro he
      rw [he] at hdat
      exact List.noConfusion hdat
    have hm : headMatches (jsTrim line) = true := by
      unfold headMatches
      rw [hdat]
      exact hc
    unfold classifyLine
    simp [h1, hm]
  · intro c rest hdat hc hbu
    have h1 : jsTrim line ≠ "" := by
      intro he
      rw [he] at hdat
      exact List.noConfusion hdat
    have hm : headMatches (jsTrim line) = false := by
      unfold headMatches
      rw [hdat]
      exact hc
    have hbs : bulletStart (jsTrim line) = true := by
      unfold bulletStart
      rw [hdat]
      simp [hbu]
    unfold classifyLine
    simp only [h1, if_neg h1, hm, Bool.false_eq_true, if_false, hbs, if_true]
    rw [hdat]
    rfl
  · intro c rest hdat hc hbu
    have h1 : jsTrim line ≠ "" := by
      intro he
      rw [he] at hdat
      exact List.noConfusion hdat
    have hm : headMatches (jsTrim line) = false := by
      unfold headMatches
      rw [hdat]
      exact hc
    have hbs : bulletStart (jsTrim line) = false := by
      unfold bulletStart
      rw [hdat]
      simp [hbu]
    unfold classifyLine
    simp [h1, hm, hbs]

/-- C4 witness: a designated header glyph line and a bullet line classify as the
amended claim states. -/
theorem c4_witness :
    classifyLine "🎯 MAIN TOPICS" = ⟨BlockKind.Header, "🎯 MAIN TOPICS"⟩ ∧
    classifyLine "• Gradient descent" = ⟨BlockKind.Bullet, "Gradient descent"⟩ := by
  constructor
  · exact (c4_amended "🎯 MAIN TOPICS").2.1 '🎯' (" MAIN TOPICS".data) rfl (by decide)
  · exact (c4_amended "• Gradient descent").2.2.1 '•' (" Gradient descent".data) rfl
      (by decide) rfl

/-- C5 counterexample: on the single bullet line `• item one` the concatenated
block contents give `item one`, while the input trimmed per line is
`• item one` — the bullet glyph (and the whitespace after it) is not
reconstructible from the contents, refuting the modulo-edge-whitespace
reconstruction part of the claim. -/
theorem c5_counterexample :
    String.intercalate "\n" ((classify "• item one").map RenderBlock.content)
      = "item one" ∧
    String.intercalate "\n" ((splitNl ("• item one" : String).data).map
        (fun l => jsTrim (String.mk l)))
      = "• item one" ∧
    ("item one" : String) ≠ "• item one" := by
  exact ⟨rfl, rfl, by decide⟩

/-- C5 (amended): the classifier emits exactly one block per input line, in
line order, and the concatenation of block contents with line breaks reinserted
reconstructs the input modulo per-line leading/trailing whitespace, the content
discarded from whitespace-only lines, and — for bullet lines — the stripped
bullet glyph (reinserted here) together with the whitespace that followed it. -/
theorem c5_amended (text : String) :
    (classify text).length = (splitNl text.data).length ∧
    String.intercalate "\n" ((classify text).map restoreContent)
      = String.intercalate "\n" ((splitNl text.data).map
          (fun l => bulletCollapse (jsTrim (String.mk l)))) := by
  constructor
  · unfold classify
    rw [List.length_map]
  · unfold classify
    rw [List.map_map]
    have hfun : (restoreContent ∘ fun l => classifyLine (String.mk l))
        = fun l => bulletCollapse (jsTrim (String.mk l)) := by
      funext l
      exact restore_classifyLine (String.mk l)
    rw [hfun]

/-- C10 (confirmed): every block the classifier produces carries content with
no leading or trailing whitespace — header, bullet and paragraph contents are
trim images, and spacer content is empty. -/
theorem c10_no_edge_ws (text : String) :
    ∀ b ∈ classify text, jsTrim b.content = b.content := by
  intro b hb
  unfold classify at hb
  rcases List.mem_map.mp hb with ⟨l, -, rfl⟩
  exact classifyLine_content_trim (String.mk l)

/-- C10 witness: the bullet block of a padded bullet line has trimmed content. -/
theorem c10_witness :
    jsTrim (RenderBlock.mk BlockKind.Bullet "item").content
      = (RenderBlock.mk BlockKind.Bullet "item").content :=
  c10_no_edge_ws "•  item " (RenderBlock.mk BlockKind.Bullet "item") (by decide)
/-- C1 counterexample: the input `*#\n*` (star, hash, newline, star) refutes
both halves of the claim for the AI-response chain.  The heading rule `#\s*`
deletes the hash together with the newline (regex `\s` matches line breaks),
merging the two stars — which the earlier asterisk rules could not pair across
the newline — so the output `**` still matches the single-asterisk wrapper
pattern, and a second normalization pass deletes it, violating idempotence. -/
theorem c1_counterexample :
    simplifyNotesCleanup "*#\n*" = "**" ∧
    simplifyNotesCleanup (simplifyNotesCleanup "*#\n*") = "" ∧
    simplifyNotesCleanup (simplifyNotesCleanup "*#\n*") ≠ simplifyNotesCleanup "*#\n*" ∧
    hasWrapMatch ['*'] (simplifyNotesCleanup "*#\n*").data = true := by
  exact ⟨rfl, rfl, by decide, rfl⟩

/-- C1 (amended): on inputs containing no hash mark and no opening bracket
(the hash rules are the only rules that can delete a newline and so merge
leftover markers from different lines, and the link rule can rebuild a fresh
match from its own output), both cleanup chains are idempotent and their
outputs contain none of the nine stripped marker patterns: no wrapper pattern
matches for the six wrapper delimiters, and no hash mark remains — hence none
of the three heading patterns `#\s*`, `##\s*`, `###\s*` can match either. -/
theorem c1_amended (s : String) (hh : '#' ∉ s.data) (hb : '[' ∉ s.data) :
    (simplifyNotesCleanup (simplifyNotesCleanup s) = simplifyNotesCleanup s ∧
      formattedNotesCleanup (formattedNotesCleanup s) = formattedNotesCleanup s) ∧
    (∀ d ∈ [['*', '*', '*'], ['*', '*'], ['*'], ['_', '_'], ['_'], [bq]],
      hasWrapMatch d (simplifyNotesCleanup s).data = false ∧
      hasWrapMatch d (formattedNotesCleanup s).data = false) ∧
    ('#' ∉ (simplifyNotesCleanup s).data ∧ '#' ∉ (formattedNotesCleanup s).data) := by
  have hB : simplifyNotesCleanupL s.data = stripWrap [bq] (emphChainL s.data) :=
    backend_eq_core s.data hh hb
  have hF : formattedNotesCleanupL s.data = stripWrap [bq] (emphChainL s.data) :=
    frontend_eq_core s.data hh
  have hcore_h : '#' ∉ stripWrap [bq] (emphChainL s.data) := core_not_hash s.data hh
  have hcore_b : '[' ∉ stripWrap [bq] (emphChainL s.data) := core_not_bracket s.data hb
  have hstar := core_noPair_star s.data
  have hund := core_noPair_und s.data
  have hbqp := core_noPair_bq s.data
  have hdataB : (simplifyNotesCleanup s).data = stripWrap [bq] (emphChainL s.data) := hB
  have hdataF : (formattedNotesCleanup s).data = stripWrap [bq] (emphChainL s.data) := hF
  refine ⟨⟨?_, ?_⟩, ?_, ?_, ?_⟩
  · show String.mk (simplifyNotesCleanupL (simplifyNotesCleanup s).data)
      = String.mk (simplifyNotesCleanupL s.data)
    rw [hdataB, backend_eq_core _ hcore_h hcore_b, core_fixed, hB]
  · show String.mk (formattedNotesCleanupL (formattedNotesCleanup s).data)
      = String.mk (formattedNotesCleanupL s.data)
    rw [hdataF, frontend_eq_core _ hcore_h, core_fixed, hF]
  · intro d hd
    rw [hdataB, hdataF]
    simp only [List.mem_cons, List.mem_singleton] at hd
    rcases hd with rfl | rfl | rfl | rfl | rfl | rfl | hfalse
    · constructor <;>
        exact noPair_noWrapMatch (by decide) (by simp) (by decide) _ hstar
    · constructor <;>
        exact noPair_noWrapMatch (by decide) (by simp) (by decide) _ hstar
    · constructor <;>
        exact noPair_noWrapMatch (by decide) (by simp) (by decide) _ hstar
    · constructor <;>
        exact noPair_noWrapMatch (by decide) (by simp) (by decide) _ hund
    · constructor <;>
        exact noPair_noWrapMatch (by decide) (by simp) (by decide) _ hund
    · constructor <;>
        exact noPair_noWrapMatch (by decide) (by simp) (by decide) _ hbqp
    · exact absurd hfalse (List.not_mem_nil d)
  · rw [hdataB]
    exact hcore_h
  · rw [hdataF]
    exact hcore_h

/-- C1 witness: the amended claim at a concrete hash-free, bracket-free input. -/
theorem c1_witness :
    simplifyNotesCleanup (simplifyNotesCleanup "**Neural** _nets_ are `layered`.")
      = simplifyNotesCleanup "**Neural** _nets_ are `layered`." :=
  (c1_amended "**Neural** _nets_ are `layered`." (by decide) (by decide)).1.1

/-- C8 counterexample: on the input hash, backquote, space, backquote — which
contains no markup-link form — the two call sites disagree.  The backend chain
strips the hash rules first (`#` deleted, then the backtick pair, leaving one
space); the frontend chain strips the backtick pair first, after which `#\s*`
consumes the hash and the space (leaving the empty string). -/
theorem c8_counterexample :
    hasLinkMatch ("#` `" : String).data = false ∧
    simplifyNotesCleanup "#` `" = " " ∧
    formattedNotesCleanup "#` `" = "" ∧
    simplifyNotesCleanup "#` `" ≠ formattedNotesCleanup "#` `" := by
  exact ⟨rfl, rfl, rfl, by decide⟩

/-- C8 (amended): the two cleanup chains agree on every input containing no
backquote and no opening bracket.  The chains differ only in the position of
the inline-code rule relative to the heading rules and in the link rule; with
no backquote the inline-code rule is the identity at both positions, and with
no opening bracket the link rule is the identity, so both chains reduce to the
emphasis rules followed by the heading rules. -/
theorem c8_amended (s : String) (hq : bq ∉ s.data) (hb : '[' ∉ s.data) :
    simplifyNotesCleanup s = formattedNotesCleanup s := by
  have hqE : bq ∉ emphChainL s.data := emph_not_mem (by decide) (by decide) hq
  have hbE : '[' ∉ emphChainL s.data := emph_not_mem (by decide) (by decide) hb
  have hqH : bq ∉ stripHead ['#'] (stripHead ['#', '#'] (stripHead ['#', '#', '#']
      (emphChainL s.data))) :=
    stripHead_not_mem (by simp) (stripHead_not_mem (by simp)
      (stripHead_not_mem (by simp) hqE))
  have hbH : '[' ∉ stripHead ['#'] (stripHead ['#', '#'] (stripHead ['#', '#', '#']
      (emphChainL s.data))) :=
    stripHead_not_mem (by simp) (stripHead_not_mem (by simp)
      (stripHead_not_mem (by simp) hbE))
  have hback : simplifyNotesCleanupL s.data
      = stripHead ['#'] (stripHead ['#', '#'] (stripHead ['#', '#', '#']
        (emphChainL s.data))) := by
    unfold simplifyNotesCleanupL
    rw [stripWrap_id_not_mem _ hqH, stripLinks_id _ hbH]
  have hfront : formattedNotesCleanupL s.data
      = stripHead ['#'] (stripHead ['#', '#'] (stripHead ['#', '#', '#']
        (emphChainL s.data))) := by
    unfold formattedNotesCleanupL
    rw [stripWrap_id_not_mem _ hqE]
  show String.mk (simplifyNotesCleanupL s.data) = String.mk (formattedNotesCleanupL s.data)
  rw [hback, hfront]

/-- C8 witness: the two chains agree on a concrete input exercising asterisk,
underscore and heading rules. -/
theorem c8_witness :
    simplifyNotesCleanup "## Title with **bold** and _italic_"
      = formattedNotesCleanup "## Title with **bold** and _italic_" :=
  c8_amended "## Title with **bold** and _italic_" (by decide) (by decide)
